import Mathlib

/-! # Simple-KV-Database: a verification development of `kvdb.c`

The development embeds the four operations of `kvdb.c` (`set_value`, `get_value`,
`delete_value`, `timestamp_value`) and the three cache routines they use
(`add_to_cache`, `get_from_cache`, `delete_from_cache`), together with `initialize_cache`,
as Lean functions on an explicit state, and proves or refutes statements about them.

Modelling conventions.

* A `char` buffer is represented by the text it holds up to its terminator. Copying a
  text that does not fit its destination (`strcpy` past the end of a field) is undefined
  behaviour in C; the embedding returns `none` there.
* The database file `kvdb.dat` is a sequence of whole records, or absent.
* The shared cache is the array `data` together with the count the source calls
  `capacity`. `memmove` and `memcpy` are modelled on record slots.
* What the operating system decides (whether `kvdb.lock` exists, whether `open`,
  `remove` and `rename` succeed, the text `strftime` produces for the current time) is an
  input of each call, the `Env` record.
* Every call runs to completion before the next one starts: the development is about
  one sequence of calls, not about interleaved processes.
-/

namespace KVDB

/-! ## Constants and the record type -/

/-- The constant `MAX_KEY_LENGTH`, 256: the size of the key buffer. -/
def MAX_KEY_LENGTH : Nat := 256

/-- The constant `MAX_VALUE_LENGTH`, 256: the size of the value buffer. -/
def MAX_VALUE_LENGTH : Nat := 256

/-- The constant `TIMESTAMP_LENGTH`, 24: the size of a timestamp buffer. -/
def TIMESTAMP_LENGTH : Nat := 24

/-- The constant `MAX_CACHE_SIZE`, 1000: the number of cache slots. -/
def MAX_CACHE_SIZE : Nat := 1000

/-- The struct `KeyValue`: each field is the text held by the corresponding buffer. -/
structure KeyValue where
  key : String
  value : String
  first_set_timestamp : String
  last_set_timestamp : String
deriving DecidableEq, Repr, Inhabited

/-- The struct `Cache`: the slot array and the number of live entries, which the source
names `capacity`. The live entries are the slots `0 .. capacity - 1`. -/
structure Cache where
  data : Nat → KeyValue
  capacity : Nat

/-- The live entries of the cache, front (index 0) first. -/
def Cache.live (c : Cache) : List KeyValue :=
  (List.range c.capacity).map c.data

/-! ## Memory primitives on record slots -/

/-- The call `memmove(data + dst, data + src, n * sizeof(KeyValue))`: the `n` slots starting
at `src` are copied to the `n` slots starting at `dst`, as if through a temporary buffer. -/
def memmove (data : Nat → KeyValue) (dst src n : Nat) : Nat → KeyValue :=
  fun j => if dst ≤ j ∧ j < dst + n then data (src + (j - dst)) else data j

/-- The call `memcpy(data + dst, kv, sizeof(KeyValue))`: slot `dst` receives the record `kv`.
When the source record is the destination slot itself nothing changes. -/
def memcpy (data : Nat → KeyValue) (dst : Nat) (kv : KeyValue) : Nat → KeyValue :=
  fun j => if j = dst then kv else data j

/-- The call `strcpy(dst, src)` into a buffer of `size` bytes: the text and its terminator
must fit. Writing past the buffer is undefined behaviour, rendered as `none`. -/
def strcpy (size : Nat) (src : String) : Option String :=
  if src.utf8ByteSize < size then some src else none

/-! ## The shared cache -/

/-- The search loop shared by the three cache routines,
`for (i = 0; i < cache->capacity; i++) if (strcmp(cache->data[i].key, key) == 0)`:
the first live index whose key is `key`. -/
def cache_index (c : Cache) (key : String) : Option Nat :=
  (List.range c.capacity).find? (fun i => decide ((c.data i).key = key))

/-- The function `add_to_cache` (kvdb.c, lines 60-93). -/
def add_to_cache (kv : KeyValue) (cache : Cache) : Cache :=
  match cache_index cache kv.key with
  | some i =>
    -- strcpy(cache->data[i].value, kv->value);
    let d1 := memcpy cache.data i { cache.data i with value := kv.value }
    -- strcpy(cache->data[i].last_set_timestamp, kv->last_set_timestamp);
    let d2 := memcpy d1 i { d1 i with last_set_timestamp := kv.last_set_timestamp }
    -- memmove(cache->data + 1, cache->data, i * sizeof(KeyValue));
    let d3 := memmove d2 1 0 i
    -- memcpy(cache->data, &cache->data[i], sizeof(KeyValue));
    let d4 := memcpy d3 0 (d3 i)
    { data := d4, capacity := cache.capacity }
  | none =>
    let c1 : Cache :=
      if cache.capacity ≥ MAX_CACHE_SIZE then
        -- memmove(cache->data, cache->data + 1, (cache->capacity - 1) * sizeof(KeyValue));
        { data := memmove cache.data 0 1 (cache.capacity - 1), capacity := cache.capacity }
      else
        -- cache->capacity++;
        { data := cache.data, capacity := cache.capacity + 1 }
    -- memmove(cache->data + 1, cache->data, (cache->capacity - 1) * sizeof(KeyValue));
    let d2 := memmove c1.data 1 0 (c1.capacity - 1)
    -- memcpy(cache->data, kv, sizeof(KeyValue));
    { data := memcpy d2 0 kv, capacity := c1.capacity }

/-- The function `get_from_cache` (kvdb.c, lines 95-115). The pointer `&cache->data[i]`
it returns is the index `i`; `none` is `NULL`. The caller reads through the pointer after
the call, that is, in the cache the call leaves behind. -/
def get_from_cache (key : String) (cache : Cache) : Option Nat × Cache :=
  match cache_index cache key with
  | some i =>
    -- memmove(cache->data + 1, cache->data, i * sizeof(KeyValue));
    let d1 := memmove cache.data 1 0 i
    -- memcpy(cache->data, &cache->data[i], sizeof(KeyValue));
    let d2 := memcpy d1 0 (d1 i)
    (some i, { data := d2, capacity := cache.capacity })
  | none => (none, cache)

/-- The record a caller of `get_from_cache` sees through the returned pointer. -/
def cached_record (key : String) (cache : Cache) : Option KeyValue :=
  (get_from_cache key cache).1.map (get_from_cache key cache).2.data

/-- The function `delete_from_cache` (kvdb.c, lines 117-132). -/
def delete_from_cache (key : String) (cache : Cache) : Cache :=
  match cache_index cache key with
  | some i =>
    -- memmove(cache->data + i, cache->data + i + 1, (cache->capacity - i - 1) * sizeof(KeyValue));
    { data := memmove cache.data i (i + 1) (cache.capacity - i - 1),
      capacity := cache.capacity - 1 }
  | none => cache

/-- The function `initialize_cache` (kvdb.c, lines 35-49): the shared segment is mapped
with whatever it holds and `cache->capacity = 0` is stored. -/
def initialize_cache (segment : Cache) : Cache :=
  { data := segment.data, capacity := 0 }

/-! ## The environment, the store and the results of a call -/

/-- What the operating system answers during one call. -/
structure Env where
  /-- Whether `open("kvdb.lock", O_RDONLY)` succeeds, the test of `is_lock_file_present`. -/
  lock_file : Bool
  /-- Whether `open("kvdb.dat", ...)` is granted. Without `O_CREAT` the file must exist too. -/
  db_open : Bool
  /-- Whether `open("temp.dat", O_WRONLY | O_CREAT | O_TRUNC)` succeeds. -/
  temp_open : Bool
  /-- Whether `remove("kvdb.dat")` succeeds. -/
  remove_ok : Bool
  /-- Whether `rename("temp.dat", "kvdb.dat")` succeeds. -/
  rename_ok : Bool
  /-- The text `strftime` renders for `time(NULL)` with the pattern `%Y-%m-%d %H:%M:%S`. -/
  now : String

/-- The environment in which nothing fails and no lock file exists, at time `now`. -/
def Env.ok (now : String) : Env :=
  { lock_file := false, db_open := true, temp_open := true, remove_ok := true,
    rename_ok := true, now := now }

/-- The environment at time `now` in which the file `kvdb.lock` exists. -/
def Env.locked (now : String) : Env :=
  { Env.ok now with lock_file := true }

/-- The environment at time `now` in which `kvdb.dat` cannot be opened. -/
def Env.unopened (now : String) : Env :=
  { Env.ok now with db_open := false }

/-- The persistent and shared state: the file `kvdb.dat` (`none` when it does not exist)
and the shared cache. The file `temp.dat` is never read and is left out. -/
structure Store where
  db : Option (List KeyValue)
  cache : Cache

/-- The records of the log; a missing file has none. -/
def Store.records (s : Store) : List KeyValue :=
  s.db.getD []

/-- The lines the operations print, one constructor per `printf` pattern. -/
inductive Msg where
  /-- Prints "Another process is currently setting a value. Please try again later." -/
  | busy
  /-- Prints "Error opening database file" -/
  | open_error
  /-- Prints "Error creating temporary file" -/
  | temp_error
  /-- Prints "Error deleting database file" -/
  | remove_error
  /-- Prints "Error renaming temporary file" -/
  | rename_error
  /-- Prints "key found, and we are going to re-write" -/
  | rewrite
  /-- Prints "Value found in cache: %s" -/
  | cached_value (value : String)
  /-- Prints "%s" with the value found in the log -/
  | value (value : String)
  /-- Prints "Key not found" -/
  | key_not_found
  /-- Prints "First set (cached): %s", "Last set (cached): %s" -/
  | cached_timestamps (first last : String)
  /-- Prints "First set: %s", "Last set: %s" -/
  | timestamps (first last : String)
deriving DecidableEq, Repr

/-- Calls of `acquire_lock` and `release_lock`, in the order they are made. -/
inductive LockOp where
  | acquire
  | release
deriving DecidableEq, Repr

/-- What a call leaves behind: the store, the printed lines, the lock calls. -/
structure Result where
  store : Store
  out : List Msg
  locks : List LockOp

/-! ## The storage log -/

/-- The scan loop `while (read(db_file, &kv, sizeof(KeyValue)) == sizeof(KeyValue))` with
the test `strcmp(kv.key, key) == 0`: position and content of the first matching record. -/
def find_record (key : String) : List KeyValue → Option (Nat × KeyValue)
  | [] => none
  | kv :: rest =>
    if kv.key = key then some (0, kv)
    else (find_record key rest).map (fun p => (p.1 + 1, p.2))

/-- Opening `kvdb.dat` without `O_CREAT`: the records, or `none` when `open` returns -1. -/
def open_existing (env : Env) (s : Store) : Option (List KeyValue) :=
  if env.db_open then s.db else none

/-- The function `set_value` (kvdb.c, lines 167-220). -/
def set_value (env : Env) (key value : String) (s : Store) : Option Result :=
  if env.lock_file then
    some { store := s, out := [Msg.busy], locks := [] }
  else if !env.db_open then
    some { store := s, out := [Msg.open_error], locks := [LockOp.acquire, LockOp.release] }
  else
    -- O_RDWR | O_CREAT: a missing file is created empty
    let log := s.records
    match find_record key log with
    | some (i, kv) =>
      -- strftime(kv.last_set_timestamp, ...); strcpy(kv.value, value);
      (strcpy MAX_VALUE_LENGTH value).map fun v =>
        let kv1 : KeyValue := { kv with last_set_timestamp := env.now, value := v }
        -- lseek(db_file, -sizeof(KeyValue), SEEK_CUR); write(db_file, &kv, sizeof(KeyValue));
        { store := { db := some (log.set i kv1), cache := add_to_cache kv1 s.cache },
          out := [Msg.rewrite], locks := [LockOp.acquire, LockOp.release] }
    | none =>
      -- strftime(kv.first_set_timestamp, ...); strcpy(kv.key, key); strcpy(kv.value, value);
      -- strcpy(kv.last_set_timestamp, kv.first_set_timestamp);
      (strcpy MAX_KEY_LENGTH key).bind fun k =>
      (strcpy MAX_VALUE_LENGTH value).map fun v =>
        let kv1 : KeyValue :=
          { key := k, value := v, first_set_timestamp := env.now,
            last_set_timestamp := env.now }
        -- lseek(db_file, 0, SEEK_END); write(db_file, &kv, sizeof(KeyValue));
        { store := { db := some (log ++ [kv1]), cache := add_to_cache kv1 s.cache },
          out := [], locks := [LockOp.acquire, LockOp.release] }

/-- The function `get_value` (kvdb.c, lines 223-259). -/
def get_value (env : Env) (key : String) (s : Store) : Result :=
  if env.lock_file then
    { store := s, out := [Msg.busy], locks := [] }
  else
    match get_from_cache key s.cache with
    | (some p, cache1) =>
      { store := { db := s.db, cache := cache1 },
        out := [Msg.cached_value (cache1.data p).value], locks := [] }
    | (none, cache1) =>
      match open_existing env s with
      | none =>
        { store := { db := s.db, cache := cache1 }, out := [Msg.open_error],
          locks := [LockOp.acquire, LockOp.release] }
      | some log =>
        match find_record key log with
        | some (_, kv) =>
          { store := { db := s.db, cache := add_to_cache kv cache1 },
            out := [Msg.value kv.value], locks := [LockOp.acquire, LockOp.release] }
        | none =>
          { store := { db := s.db, cache := cache1 }, out := [Msg.key_not_found],
            locks := [LockOp.acquire, LockOp.release] }

/-- The copy loop of `delete_value` (kvdb.c, lines 282-290): records with another key go
to `temp.dat`, each record with the key triggers one `delete_from_cache`. -/
def delete_loop (key : String) : List KeyValue → List KeyValue × Cache → List KeyValue × Cache
  | [], acc => acc
  | kv :: rest, (temp, cache) =>
    if kv.key ≠ key then delete_loop key rest (temp ++ [kv], cache)
    else delete_loop key rest (temp, delete_from_cache key cache)

/-- The function `delete_value` (kvdb.c, lines 262-309). -/
def delete_value (env : Env) (key : String) (s : Store) : Result :=
  match open_existing env s with
  | none =>
    { store := s, out := [Msg.open_error], locks := [LockOp.acquire, LockOp.release] }
  | some log =>
    if !env.temp_open then
      { store := s, out := [Msg.temp_error], locks := [LockOp.acquire, LockOp.release] }
    else
      let r := delete_loop key log ([], s.cache)
      if !env.remove_ok then
        { store := { db := s.db, cache := r.2 }, out := [Msg.remove_error],
          locks := [LockOp.acquire, LockOp.release] }
      else if !env.rename_ok then
        -- kvdb.dat is gone and temp.dat could not take its place
        { store := { db := none, cache := r.2 }, out := [Msg.rename_error],
          locks := [LockOp.acquire, LockOp.release] }
      else
        { store := { db := some r.1, cache := r.2 }, out := [],
          locks := [LockOp.acquire, LockOp.release] }

/-- The function `timestamp_value` (kvdb.c, lines 312-344). -/
def timestamp_value (env : Env) (key : String) (s : Store) : Result :=
  match get_from_cache key s.cache with
  | (some p, cache1) =>
    { store := { db := s.db, cache := cache1 },
      out := [Msg.cached_timestamps (cache1.data p).first_set_timestamp
                (cache1.data p).last_set_timestamp],
      locks := [] }
  | (none, cache1) =>
    match open_existing env s with
    | none =>
      { store := { db := s.db, cache := cache1 }, out := [Msg.open_error],
        locks := [LockOp.acquire, LockOp.release] }
    | some log =>
      match find_record key log with
      | some (_, kv) =>
        { store := { db := s.db, cache := add_to_cache kv cache1 },
          out := [Msg.timestamps kv.first_set_timestamp kv.last_set_timestamp],
          locks := [LockOp.acquire, LockOp.release] }
      | none =>
        { store := { db := s.db, cache := cache1 }, out := [Msg.key_not_found],
          locks := [LockOp.acquire, LockOp.release] }

/-! ## Sequences of calls -/

/-- One call of the command line: `set`, `get`, `del` or `ts` with its arguments. -/
inductive Call where
  | set (key value : String)
  | get (key : String)
  | del (key : String)
  | ts (key : String)
deriving DecidableEq, Repr

/-- The result of one call in the environment `env`. -/
def Call.result (env : Env) : Call → Store → Option Result
  | Call.set k v, s => set_value env k v s
  | Call.get k, s => some (get_value env k s)
  | Call.del k, s => some (delete_value env k s)
  | Call.ts k, s => some (timestamp_value env k s)

/-- The store after a sequence of calls, each with its own environment, run one after
another; `none` when one of them has undefined behaviour. -/
def run : List (Env × Call) → Store → Option Store
  | [], s => some s
  | (env, c) :: rest, s => (c.result env s).bind fun r => run rest r.store

/-- The lines printed by a sequence of calls, one list per call; `none` when one of the
calls has undefined behaviour. -/
def trace : List (Env × Call) → Store → Option (List (List Msg))
  | [], _ => some []
  | (env, c) :: rest, s =>
    (c.result env s).bind fun r => (trace rest r.store).map fun outs => r.out :: outs

/-- A store with an empty log (the file missing or without records) and an empty cache. -/
def Store.empty (s : Store) : Prop :=
  s.records = [] ∧ s.cache.capacity = 0

/-- The stores reachable from an empty log and an empty cache by a sequence of calls. -/
def Reachable (s : Store) : Prop :=
  ∃ s0 : Store, s0.empty ∧ ∃ calls, run calls s0 = some s

/-- The arguments of a call fit the record: key and value of at most 255 bytes. -/
def Call.fits : Call → Prop
  | Call.set k v => k.utf8ByteSize ≤ 255 ∧ v.utf8ByteSize ≤ 255
  | Call.get k => k.utf8ByteSize ≤ 255
  | Call.del k => k.utf8ByteSize ≤ 255
  | Call.ts k => k.utf8ByteSize ≤ 255

/-- Whether the arguments of a call fit can be computed. -/
instance Call.fits_decidable (c : Call) : Decidable c.fits := by
  cases c <;> unfold Call.fits <;> infer_instance

/-- The store every process finds on a fresh machine: no `kvdb.dat`, a zero-filled cache
segment with no live entry. -/
def Store.fresh : Store :=
  { db := none, cache := { data := fun _ => ⟨"", "", "", ""⟩, capacity := 0 } }

/-! ## Sequences of calls of the cache routines -/

/-- One call of a cache routine. -/
inductive CacheOp where
  | add (kv : KeyValue)
  | get (key : String)
  | del (key : String)

/-- The cache a call of a cache routine leaves behind. -/
def CacheOp.apply : CacheOp → Cache → Cache
  | CacheOp.add kv, c => add_to_cache kv c
  | CacheOp.get key, c => (get_from_cache key c).2
  | CacheOp.del key, c => delete_from_cache key c

/-- The cache after a sequence of calls of the cache routines. -/
def run_cache : List CacheOp → Cache → Cache
  | [], c => c
  | op :: rest, c => run_cache rest (op.apply c)

/-- One past the last slot of the span of `n` slots that starts at slot `start`; a span of
no slots touches nothing. -/
def span_end (start n : Nat) : Nat :=
  if n = 0 then 0 else start + n

/-- The number of leading slots of `data` a call of a cache routine reads or writes: one
past the highest index used by its search loop and by the spans of its `memmove` and
`memcpy` calls. -/
def CacheOp.extent : CacheOp → Cache → Nat
  | CacheOp.add kv, c =>
    match cache_index c kv.key with
    | some i =>
      -- the loop reads data[0..i]; strcpy into data[i];
      -- memmove(data + 1, data, i); memcpy(data, &data[i])
      max (i + 1) (max (span_end 1 i) (span_end 0 i))
    | none =>
      if c.capacity ≥ MAX_CACHE_SIZE then
        -- the loop reads data[0..capacity-1]; memmove(data, data + 1, capacity - 1);
        -- memmove(data + 1, data, capacity - 1); memcpy(data, kv)
        max c.capacity (max (max (span_end 0 (c.capacity - 1)) (span_end 1 (c.capacity - 1))) 1)
      else
        -- capacity++; memmove(data + 1, data, capacity - 1); memcpy(data, kv)
        max c.capacity
          (max (max (span_end 1 (c.capacity + 1 - 1)) (span_end 0 (c.capacity + 1 - 1))) 1)
  | CacheOp.get key, c =>
    match cache_index c key with
    | some i =>
      -- memmove(data + 1, data, i); memcpy(data, &data[i])
      max (i + 1) (max (span_end 1 i) (span_end 0 i))
    | none => c.capacity
  | CacheOp.del key, c =>
    match cache_index c key with
    | some i =>
      -- memmove(data + i, data + i + 1, capacity - i - 1)
      max (i + 1) (max (span_end i (c.capacity - i - 1)) (span_end (i + 1) (c.capacity - i - 1)))
    | none => c.capacity

/-! ## Concrete logs, caches and stores used in the examples -/

/-- A log of three records with the keys `a`, `k` and `b`. -/
def demo_log : List KeyValue :=
  [⟨"a", "1", "t1", "t1"⟩, ⟨"k", "2", "t2", "t3"⟩, ⟨"b", "3", "t4", "t4"⟩]

/-- The store holding `demo_log` and an empty cache. -/
def demo_store : Store :=
  { db := some demo_log, cache := { data := fun _ => ⟨"", "", "", ""⟩, capacity := 0 } }

/-- The calls `set y 1`, `set k 2`, `get y`, made one after another at the times `t1`,
`t2`, `t3`, each without a lock file and without a failing system call. -/
def demo_calls : List (Env × Call) :=
  [(Env.ok "t1", Call.set "y" "1"), (Env.ok "t2", Call.set "k" "2"),
   (Env.ok "t3", Call.get "y")]

/-- A text of 256 bytes, one more than a key or value buffer holds with its terminator. -/
def long_text : String :=
  String.mk (List.replicate 256 'v')

/-- A cache with the two live entries `a` (front) and `b`. -/
def two_entries : Cache :=
  { data := fun i => if i = 0 then ⟨"a", "1", "t1", "t1"⟩ else ⟨"b", "2", "t2", "t2"⟩,
    capacity := 2 }

/-- A full cache: `MAX_CACHE_SIZE` live entries, the entry at index `i` having the key
made of `i + 1` letters `v`, so that the keys are pairwise distinct. -/
def full_cache : Cache :=
  { data := fun i => ⟨String.mk (List.replicate (i + 1) 'v'), "", "", ""⟩,
    capacity := MAX_CACHE_SIZE }

/-- Three calls at times that do not decrease, written as `strftime` renders them. -/
def timed_calls : List (Env × Call) :=
  [(Env.ok "2024-05-01 10:00:00", Call.set "k" "1"),
   (Env.ok "2024-05-01 10:00:07", Call.set "k" "2"),
   (Env.ok "2024-05-02 09:30:00", Call.del "j")]

/-! # Theorems -/

/-! ## Facts about the log scan -/

theorem find_record_eq_none {k : String} {log : List KeyValue} :
    find_record k log = none ↔ ∀ kv ∈ log, kv.key ≠ k := by
  induction log with
  | nil => simp [find_record]
  | cons a rest ih =>
    by_cases h : a.key = k
    · simp [find_record, h]
    · simp [find_record, h, ih]

theorem find_record_eq_some {k : String} {log : List KeyValue} {i : Nat} {kv : KeyValue}
    (h : find_record k log = some (i, kv)) :
    ∃ pre post, log = pre ++ kv :: post ∧ pre.length = i ∧ kv.key = k ∧
      ∀ x ∈ pre, x.key ≠ k := by
  induction log generalizing i with
  | nil => simp [find_record] at h
  | cons a rest ih =>
    by_cases ha : a.key = k
    · simp only [find_record, ha, if_true, Option.some.injEq, Prod.mk.injEq] at h
      obtain ⟨rfl, rfl⟩ := h
      exact ⟨[], rest, rfl, rfl, ha, by simp⟩
    · simp only [find_record, ha, if_false, Option.map_eq_some'] at h
      obtain ⟨⟨j, kv1⟩, hj, hp⟩ := h
      simp only [Prod.mk.injEq] at hp
      obtain ⟨rfl, rfl⟩ := hp
      obtain ⟨pre, post, hlog, hlen, hkey, hpre⟩ := ih hj
      refine ⟨a :: pre, post, by simp [hlog], by simp [hlen], hkey, ?_⟩
      intro x hx
      rcases List.mem_cons.mp hx with rfl | hx
      · exact ha
      · exact hpre x hx

theorem find_record_of_split {k : String} {pre post : List KeyValue} {kv : KeyValue}
    (hkey : kv.key = k) (hpre : ∀ x ∈ pre, x.key ≠ k) :
    find_record k (pre ++ kv :: post) = some (pre.length, kv) := by
  induction pre with
  | nil => simp [find_record, hkey]
  | cons a rest ih =>
    have ha : a.key ≠ k := hpre a (List.mem_cons_self _ _)
    have hrest : ∀ x ∈ rest, x.key ≠ k := fun x hx => hpre x (List.mem_cons_of_mem _ hx)
    simp [find_record, ha, ih hrest]

theorem find_record_snd (k : String) (log : List KeyValue) :
    (find_record k log).map Prod.snd = log.find? (fun kv => decide (kv.key = k)) := by
  induction log with
  | nil => simp [find_record]
  | cons a rest ih =>
    by_cases ha : a.key = k
    · simp [find_record, ha]
    · simp [find_record, ha, ← ih, Option.map_map, Function.comp_def]

theorem set_split (pre post : List KeyValue) (kv kv1 : KeyValue) :
    (pre ++ kv :: post).set pre.length kv1 = pre ++ kv1 :: post := by
  induction pre with
  | nil => simp
  | cons a rest ih => simp [ih]

/-! ## Facts about the copy loop of `delete_value` -/

theorem delete_loop_fst (k : String) (log temp : List KeyValue) (c : Cache) :
    (delete_loop k log (temp, c)).1 = temp ++ log.filter (fun kv => decide (kv.key ≠ k)) := by
  induction log generalizing temp c with
  | nil => simp [delete_loop]
  | cons a rest ih =>
    by_cases ha : a.key = k
    · simp [delete_loop, ha, ih]
    · simp [delete_loop, ha, ih]

/-! ## Facts about `delete_value` -/

theorem delete_value_db (env : Env) (k : String) (s : Store) :
    (delete_value env k s).out = [] →
      ∃ log, s.db = some log ∧
        (delete_value env k s).store.db = some (log.filter (fun kv => decide (kv.key ≠ k))) := by
  intro h
  unfold delete_value at h ⊢
  cases hopen : open_existing env s with
  | none => simp [hopen] at h
  | some log =>
    have hdb : s.db = some log := by
      unfold open_existing at hopen
      split at hopen
      · exact hopen
      · cases hopen
    simp only [hopen] at h ⊢
    by_cases h1 : env.temp_open = true <;> by_cases h2 : env.remove_ok = true <;>
      by_cases h3 : env.rename_ok = true <;> simp [h1, h2, h3] at h ⊢
    exact ⟨log, hdb, by simpa using delete_loop_fst k log [] s.cache⟩

theorem delete_value_succeeds (env : Env) (k : String) (s : Store) (log : List KeyValue)
    (hdb : s.db = some log) (hopen : env.db_open = true) (htemp : env.temp_open = true)
    (hrem : env.remove_ok = true) (hren : env.rename_ok = true) :
    (delete_value env k s).out = [] := by
  simp [delete_value, open_existing, hdb, hopen, htemp, hrem, hren]

/-! ## The claims about the operations on the store -/

/-- Claim C1 (round trip), evaluated at a failing input. On a fresh store the calls
`set y 1`, `set k 2`, `get y`, `set x 3` are made, all within bounds and without a failure.
Then `set k 4` stores the value `4` for `k` in the log, and the `get k` that follows
prints `Value found in cache: 3`. -/
theorem round_trip_fails :
    ((run (demo_calls ++ [(Env.ok "t4", Call.set "x" "3")]) Store.fresh).bind fun s =>
        (set_value (Env.ok "t5") "k" "4" s).map fun r =>
          (find_record "k" r.store.records, (get_value (Env.ok "t6") "k" r.store).out))
      = some (some (1, ⟨"k", "4", "t2", "t5"⟩), [Msg.cached_value "3"]) := by
  decide

/-- Claim C2 (delete completeness, read side), evaluated at a failing input. On a fresh
store the calls `set y 1`, `set k 2`, `get y` are made; then `del k` succeeds and leaves
only `y` in the log, but `get_from_cache` still hits `k` and `get k` prints
`Value found in cache: 2`. -/
theorem delete_leaves_cached_key :
    ((run demo_calls Store.fresh).map fun s =>
        ((delete_value (Env.ok "t4") "k" s).out,
         (delete_value (Env.ok "t4") "k" s).store.records.map KeyValue.key,
         (get_from_cache "k" (delete_value (Env.ok "t4") "k" s).store.cache).1,
         (get_value (Env.ok "t5") "k" (delete_value (Env.ok "t4") "k" s).store).out))
      = some ([], ["y"], some 0, [Msg.cached_value "2"]) := by
  decide

/-- Claim C3 (delete on the log). After a `delete_value` that reports no error, the log is
the previous log without the records whose key is `k`: no record for `k` remains, every
other record is kept, the kept records are in their previous order, and a log without a
record for `k` is unchanged. -/
theorem delete_value_log (env : Env) (k : String) (s : Store) (log : List KeyValue)
    (hdb : s.db = some log) (hsucc : (delete_value env k s).out = []) :
    (delete_value env k s).store.db = some (log.filter (fun kv => decide (kv.key ≠ k))) ∧
    (∀ kv ∈ (delete_value env k s).store.records, kv.key ≠ k) ∧
    (∀ kv ∈ log, kv.key ≠ k → kv ∈ (delete_value env k s).store.records) ∧
    ((delete_value env k s).store.records).Sublist log ∧
    ((∀ kv ∈ log, kv.key ≠ k) → (delete_value env k s).store.db = some log) := by
  obtain ⟨log1, h1, h2⟩ := delete_value_db env k s hsucc
  rw [hdb] at h1
  cases h1
  have hrec : (delete_value env k s).store.records
      = log.filter (fun kv => decide (kv.key ≠ k)) := by
    simp [Store.records, h2]
  refine ⟨h2, ?_, ?_, ?_, ?_⟩
  · intro kv hkv
    rw [hrec] at hkv
    simpa using (List.mem_filter.mp hkv).2
  · intro kv hkv hne
    rw [hrec]
    exact List.mem_filter.mpr ⟨hkv, by simpa using hne⟩
  · rw [hrec]
    exact List.filter_sublist _
  · intro hall
    rw [h2]
    congr 1
    exact List.filter_eq_self.mpr (fun kv hkv => by simpa using hall kv hkv)

theorem delete_value_log_witness :
    (delete_value (Env.ok "t5") "k" demo_store).store.db
      = some [⟨"a", "1", "t1", "t1"⟩, ⟨"b", "3", "t4", "t4"⟩] :=
  (delete_value_log (Env.ok "t5") "k" demo_store demo_log rfl (by decide)).1

/-! ## Facts about sequences of calls -/

theorem strcpy_fits {size : Nat} {src : String} (h : src.utf8ByteSize < size) :
    strcpy size src = some src := by
  simp [strcpy, h]

theorem strcpy_eq_some {size : Nat} {src dst : String} (h : strcpy size src = some dst) :
    dst = src ∧ src.utf8ByteSize < size := by
  unfold strcpy at h
  split at h
  · exact ⟨by simpa using h.symm, by assumption⟩
  · cases h

theorem get_value_db (env : Env) (k : String) (s : Store) :
    (get_value env k s).store.db = s.db := by
  unfold get_value
  repeat' split
  all_goals rfl

theorem timestamp_value_db (env : Env) (k : String) (s : Store) :
    (timestamp_value env k s).store.db = s.db := by
  unfold timestamp_value
  repeat' split
  all_goals rfl

theorem delete_value_sublist (env : Env) (k : String) (s : Store) :
    ((delete_value env k s).store.records).Sublist s.records := by
  unfold delete_value
  cases hopen : open_existing env s with
  | none => simp
  | some log =>
    have hdb : s.db = some log := by
      unfold open_existing at hopen
      split at hopen
      · exact hopen
      · cases hopen
    by_cases h1 : env.temp_open = true <;> by_cases h2 : env.remove_ok = true <;>
      by_cases h3 : env.rename_ok = true <;>
      simp [h1, h2, h3, Store.records, hdb, delete_loop_fst]

theorem set_value_total (env : Env) (k v : String) (s : Store)
    (hk : k.utf8ByteSize ≤ 255) (hv : v.utf8ByteSize ≤ 255) :
    ∃ r, set_value env k v s = some r := by
  have hk1 : strcpy MAX_KEY_LENGTH k = some k := strcpy_fits (by unfold MAX_KEY_LENGTH; omega)
  have hv1 : strcpy MAX_VALUE_LENGTH v = some v :=
    strcpy_fits (by unfold MAX_VALUE_LENGTH; omega)
  unfold set_value
  by_cases h1 : env.lock_file = true
  · simp [h1]
  · by_cases h2 : env.db_open = true
    · cases hf : find_record k s.records with
      | none => simp [h1, h2, hf, hk1, hv1]
      | some p => simp [h1, h2, hf, hv1]
    · simp [h1, h2]

theorem run_total (calls : List (Env × Call)) (s : Store)
    (hfit : ∀ c ∈ calls, c.2.fits) : ∃ s1, run calls s = some s1 := by
  induction calls generalizing s with
  | nil => exact ⟨s, rfl⟩
  | cons c rest ih =>
    obtain ⟨env, call⟩ := c
    have hc : call.fits := hfit (env, call) (List.mem_cons_self _ _)
    have hrest : ∀ c ∈ rest, c.2.fits := fun c hc => hfit c (List.mem_cons_of_mem _ hc)
    have hres : ∃ r, call.result env s = some r := by
      cases call with
      | set k v => exact set_value_total env k v s hc.1 hc.2
      | get k => exact ⟨_, rfl⟩
      | del k => exact ⟨_, rfl⟩
      | ts k => exact ⟨_, rfl⟩
    obtain ⟨r, hr⟩ := hres
    obtain ⟨s1, hs1⟩ := ih r.store hrest
    exact ⟨s1, by simp [run, hr, hs1]⟩

theorem run_invariant (P : Store → Prop)
    (hstep : ∀ env (c : Call) s r, P s → c.result env s = some r → P r.store) :
    ∀ calls s s1, P s → run calls s = some s1 → P s1 := by
  intro calls
  induction calls with
  | nil =>
    intro s s1 hP h
    simp only [run, Option.some.injEq] at h
    exact h ▸ hP
  | cons c rest ih =>
    intro s s1 hP h
    obtain ⟨env, call⟩ := c
    simp only [run, Option.bind_eq_some] at h
    obtain ⟨r, hr, hrun⟩ := h
    exact ih r.store s1 (hstep env call s r hP hr) hrun

/-- The three ways a call of `set_value` ends: nothing is written (lock file present or
`open` failed), the first record with the key is rewritten in place, or a record is
appended. -/
theorem set_value_cases {env : Env} {k v : String} {s : Store} {r : Result}
    (h : set_value env k v s = some r) :
    ((env.lock_file = true ∨ env.db_open = false) ∧ r.store = s) ∨
    (env.lock_file = false ∧ env.db_open = true ∧ v.utf8ByteSize < MAX_VALUE_LENGTH ∧
      ∃ pre old post, s.records = pre ++ old :: post ∧ old.key = k ∧
        (∀ x ∈ pre, x.key ≠ k) ∧
        r.store.db = some (pre ++ { old with last_set_timestamp := env.now, value := v }
          :: post)) ∨
    (env.lock_file = false ∧ env.db_open = true ∧ v.utf8ByteSize < MAX_VALUE_LENGTH ∧
      k.utf8ByteSize < MAX_KEY_LENGTH ∧ (∀ x ∈ s.records, x.key ≠ k) ∧
      r.store.db = some (s.records ++ [⟨k, v, env.now, env.now⟩])) := by
  unfold set_value at h
  by_cases h1 : env.lock_file = true
  · simp only [h1, if_true, Option.some.injEq] at h
    exact Or.inl ⟨Or.inl h1, by rw [← h]⟩
  · by_cases h2 : env.db_open = true
    · have h1f : env.lock_file = false := by simpa using h1
      simp only [h1, h2, Bool.not_true, if_false, Bool.false_eq_true] at h
      cases hf : find_record k s.records with
      | none =>
        simp only [hf, Option.bind_eq_some, Option.map_eq_some'] at h
        obtain ⟨k1, hk1, v1, hv1, hr⟩ := h
        obtain ⟨rfl, hk⟩ := strcpy_eq_some hk1
        obtain ⟨rfl, hv⟩ := strcpy_eq_some hv1
        refine Or.inr (Or.inr ⟨h1f, h2, hv, hk, find_record_eq_none.mp hf, ?_⟩)
        rw [← hr]
      | some p =>
        obtain ⟨i, kv⟩ := p
        simp only [hf, Option.map_eq_some'] at h
        obtain ⟨v1, hv1, hr⟩ := h
        obtain ⟨rfl, hv⟩ := strcpy_eq_some hv1
        obtain ⟨pre, post, hlog, hlen, hkey, hpre⟩ := find_record_eq_some hf
        refine Or.inr (Or.inl ⟨h1f, h2, hv, pre, kv, post, hlog, hkey, hpre, ?_⟩)
        rw [← hr]
        simp only [hlog, ← hlen, set_split]
    · have h2f : env.db_open = false := by simpa using h2
      simp only [h1, h2f, Bool.not_false, if_true, if_false, Option.some.injEq,
        Bool.false_eq_true] at h
      exact Or.inl ⟨Or.inr h2f, by rw [← h]⟩

theorem keys_nodup_step (env : Env) (c : Call) (s : Store) (r : Result)
    (hP : (s.records.map KeyValue.key).Nodup) (h : c.result env s = some r) :
    (r.store.records.map KeyValue.key).Nodup := by
  cases c with
  | set k v =>
    rcases set_value_cases h with ⟨_, hs⟩ | ⟨_, _, _, pre, old, post, hlog, _, _, hdb⟩ |
      ⟨_, _, _, _, hnone, hdb⟩
    · rw [hs]; exact hP
    · rw [hlog] at hP
      simpa [Store.records, hdb] using hP
    · simp only [Store.records, hdb, Option.getD_some, List.map_append, List.map_cons,
        List.map_nil]
      rw [List.nodup_append]
      refine ⟨hP, by simp, ?_⟩
      intro a ha hb
      simp only [List.mem_singleton] at hb
      obtain ⟨x, hx, hxa⟩ := List.mem_map.mp ha
      exact hnone x hx (hxa.trans hb)
  | get k =>
    simp only [Call.result, Option.some.injEq] at h
    rw [← h, Store.records, get_value_db]
    exact hP
  | del k =>
    simp only [Call.result, Option.some.injEq] at h
    rw [← h]
    exact ((delete_value_sublist env k s).map KeyValue.key).nodup hP
  | ts k =>
    simp only [Call.result, Option.some.injEq] at h
    rw [← h, Store.records, timestamp_value_db]
    exact hP

/-- Claim C4 (uniqueness). From a store with an empty log, every sequence of calls whose
keys and values have at most 255 bytes runs to a store, and in that store no two records
of the log have the same key. -/
theorem log_keys_unique (calls : List (Env × Call)) (s0 : Store) (h0 : s0.records = [])
    (hfit : ∀ c ∈ calls, c.2.fits) :
    ∃ s, run calls s0 = some s ∧ (s.records.map KeyValue.key).Nodup := by
  obtain ⟨s, hs⟩ := run_total calls s0 hfit
  refine ⟨s, hs, ?_⟩
  exact run_invariant (fun s => (s.records.map KeyValue.key).Nodup) keys_nodup_step
    calls s0 s (by simp [h0]) hs

theorem log_keys_unique_witness :
    ∃ s, run (demo_calls ++ [(Env.ok "t4", Call.set "k" "4"), (Env.ok "t5", Call.del "y")])
        Store.fresh = some s ∧ (s.records.map KeyValue.key).Nodup :=
  log_keys_unique _ Store.fresh rfl (by decide)

/-! ## The claims about `set_value` on the log -/

theorem set_value_hit (env : Env) (k v : String) (s : Store) (pre post : List KeyValue)
    (old : KeyValue) (hlock : env.lock_file = false) (hopen : env.db_open = true)
    (hv : v.utf8ByteSize ≤ 255) (hlog : s.records = pre ++ old :: post) (hkey : old.key = k)
    (hpre : ∀ x ∈ pre, x.key ≠ k) :
    ∃ r, set_value env k v s = some r ∧ r.out = [Msg.rewrite] ∧
      r.store.db = some (pre ++ { old with last_set_timestamp := env.now, value := v }
        :: post) := by
  have hv1 : strcpy MAX_VALUE_LENGTH v = some v :=
    strcpy_fits (by unfold MAX_VALUE_LENGTH; omega)
  have hf : find_record k s.records = some (pre.length, old) := by
    rw [hlog]
    exact find_record_of_split hkey hpre
  refine ⟨_, by simp only [set_value, hlock, hopen, hf, hv1]; rfl, rfl, ?_⟩
  simp only [hlog, set_split]

theorem set_value_miss (env : Env) (k v : String) (s : Store)
    (hlock : env.lock_file = false) (hopen : env.db_open = true)
    (hk : k.utf8ByteSize ≤ 255) (hv : v.utf8ByteSize ≤ 255)
    (hnone : ∀ x ∈ s.records, x.key ≠ k) :
    ∃ r, set_value env k v s = some r ∧ r.out = [] ∧
      r.store.db = some (s.records ++ [⟨k, v, env.now, env.now⟩]) := by
  have hk1 : strcpy MAX_KEY_LENGTH k = some k := strcpy_fits (by unfold MAX_KEY_LENGTH; omega)
  have hv1 : strcpy MAX_VALUE_LENGTH v = some v :=
    strcpy_fits (by unfold MAX_VALUE_LENGTH; omega)
  have hf : find_record k s.records = none := find_record_eq_none.mpr hnone
  exact ⟨_, by simp only [set_value, hlock, hopen, hf, hk1, hv1]; rfl, rfl, rfl⟩

theorem replicate_utf8ByteSize (n : Nat) :
    (String.mk (List.replicate n 'v')).utf8ByteSize = n := by
  induction n with
  | zero => rfl
  | succ n ih =>
    have h : (String.mk (List.replicate (n + 1) 'v')).utf8ByteSize
        = (String.mk (List.replicate n 'v')).utf8ByteSize + 1 := by
      simp only [List.replicate_succ, String.utf8ByteSize, String.utf8ByteSize.go]
      rfl
    rw [h, ih]

theorem long_text_size : long_text.utf8ByteSize = 256 :=
  replicate_utf8ByteSize 256

theorem strcpy_long_text : strcpy MAX_VALUE_LENGTH long_text = none := by
  simp [strcpy, long_text_size, MAX_VALUE_LENGTH]

/-- Claim C5 (upsert) as it is stated, for every log, key, value and time, fails at
concrete inputs. With `kvdb.lock` present the record for `k` is not rewritten and no record
is appended for the absent key `z`; when `kvdb.dat` cannot be opened the record for `k` is
not rewritten either; and a value of 256 bytes does not fit the value buffer, so the call
has no defined result. -/
theorem set_value_upsert_fails :
    (set_value (Env.locked "t9") "k" "new" demo_store).map
        (fun r => r.store.records) = some demo_log ∧
    (set_value (Env.locked "t9") "z" "new" demo_store).map
        (fun r => r.store.records) = some demo_log ∧
    (set_value (Env.unopened "t9") "k" "new" demo_store).map
        (fun r => r.store.records) = some demo_log ∧
    (set_value (Env.ok "t9") "k" long_text demo_store).isNone = true := by
  have hf : find_record "k" demo_store.records = some (1, ⟨"k", "2", "t2", "t3"⟩) := by
    decide
  exact ⟨by decide, by decide, by decide,
    by simp [set_value, Env.ok, hf, strcpy_long_text]⟩

/-- Claim C5 (upsert), amended: without a lock file, with `kvdb.dat` opened, and for a key
and a value of at most 255 bytes, `set_value` returns; if the log has a record for `k`,
the first such record keeps its key and `first_set`, gets the value `v` and `last_set = now`,
and the records before and after it stay; if the log has no record for `k`, the record
with key `k`, value `v` and `first_set = last_set = now` is appended. -/
theorem set_value_upsert (env : Env) (k v : String) (s : Store)
    (hlock : env.lock_file = false) (hopen : env.db_open = true)
    (hk : k.utf8ByteSize ≤ 255) (hv : v.utf8ByteSize ≤ 255) :
    ∃ r, set_value env k v s = some r ∧
      (∀ pre old post, s.records = pre ++ old :: post → old.key = k →
        (∀ x ∈ pre, x.key ≠ k) →
        r.store.db = some (pre ++ ⟨old.key, v, old.first_set_timestamp, env.now⟩ :: post)) ∧
      ((∀ x ∈ s.records, x.key ≠ k) →
        r.store.db = some (s.records ++ [⟨k, v, env.now, env.now⟩])) := by
  obtain ⟨r, hr⟩ := set_value_total env k v s hk hv
  refine ⟨r, hr, ?_, ?_⟩
  · intro pre old post hlog hkey hpre
    obtain ⟨r1, hr1, _, hdb⟩ := set_value_hit env k v s pre post old hlock hopen hv hlog hkey hpre
    rw [hr] at hr1
    cases hr1
    exact hdb
  · intro hnone
    obtain ⟨r1, hr1, _, hdb⟩ := set_value_miss env k v s hlock hopen hk hv hnone
    rw [hr] at hr1
    cases hr1
    exact hdb

theorem set_value_upsert_witness :
    (set_value (Env.ok "t9") "k" "new" demo_store).map (fun r => r.store.db)
      = some (some [⟨"a", "1", "t1", "t1"⟩, ⟨"k", "new", "t2", "t9"⟩, ⟨"b", "3", "t4", "t4"⟩]) := by
  obtain ⟨r, hr, hhit, _⟩ :=
    set_value_upsert (Env.ok "t9") "k" "new" demo_store rfl rfl (by decide) (by decide)
  rw [hr]
  exact congrArg some
    (hhit [⟨"a", "1", "t1", "t1"⟩] ⟨"k", "2", "t2", "t3"⟩ [⟨"b", "3", "t4", "t4"⟩] rfl rfl
      (by decide))

/-! ## Facts about the cache search loop -/

theorem cache_index_eq_none {c : Cache} {k : String} :
    cache_index c k = none ↔ ∀ i < c.capacity, (c.data i).key ≠ k := by
  simp [cache_index, List.find?_range_eq_none]

theorem cache_index_eq_some {c : Cache} {k : String} {i : Nat} :
    cache_index c k = some i ↔
      i < c.capacity ∧ (c.data i).key = k ∧ ∀ j < i, (c.data j).key ≠ k := by
  simp only [cache_index, List.find?_range_eq_some, List.mem_range, decide_eq_true_eq,
    Bool.not_eq_true', decide_eq_false_iff_not]
  constructor
  · rintro ⟨h1, h2, h3⟩
    exact ⟨h2, h1, h3⟩
  · rintro ⟨h1, h2, h3⟩
    exact ⟨h2, h1, h3⟩

theorem cache_index_live_none {c : Cache} {k : String} :
    cache_index c k = none ↔ ∀ kv ∈ c.live, kv.key ≠ k := by
  rw [cache_index_eq_none]
  simp only [Cache.live, List.mem_map, List.mem_range]
  constructor
  · rintro h kv ⟨i, hi, rfl⟩
    exact h i hi
  · intro h i hi
    exact h (c.data i) ⟨i, hi, rfl⟩

theorem get_from_cache_miss {c : Cache} {k : String} (h : cache_index c k = none) :
    get_from_cache k c = (none, c) := by
  simp [get_from_cache, h]

theorem add_to_cache_miss_front {c : Cache} {kv : KeyValue}
    (h : cache_index c kv.key = none) :
    (add_to_cache kv c).data 0 = kv ∧ 0 < (add_to_cache kv c).capacity := by
  unfold add_to_cache
  simp only [h]
  by_cases hfull : c.capacity ≥ MAX_CACHE_SIZE
  · have hpos : 0 < c.capacity := by unfold MAX_CACHE_SIZE at hfull; omega
    simp [hfull, memcpy, hpos]
  · simp [hfull, memcpy]

theorem full_cache_key_ne (i : Nat) : (full_cache.data i).key ≠ "new" := by
  intro h
  have h1 := congrArg (fun s : String => s.data.head?) h
  simp [full_cache, List.replicate_succ] at h1

/-! ## The claims about the cache routines -/

/-- Claim C6 (LRU eviction), what the code does on a full cache. When the cache holds
`MAX_CACHE_SIZE` entries and the key of `kv` is not among them, `add_to_cache` puts `kv`
at index 0 and leaves every entry at an index from 1 to 999 where it was: the entry
dropped is the old front entry (index 0, the most recently touched one), and the back
entry (index 999) stays. With pairwise distinct keys the key of the old front entry is
no longer found. -/
theorem add_to_cache_full (kv : KeyValue) (c : Cache) (hfull : c.capacity = MAX_CACHE_SIZE)
    (hnew : ∀ i < c.capacity, (c.data i).key ≠ kv.key) :
    (add_to_cache kv c).capacity = MAX_CACHE_SIZE ∧
    (add_to_cache kv c).data 0 = kv ∧
    (∀ j, 1 ≤ j → j < MAX_CACHE_SIZE → (add_to_cache kv c).data j = c.data j) ∧
    ((∀ j, 1 ≤ j → j < MAX_CACHE_SIZE → (c.data j).key ≠ (c.data 0).key) →
      cache_index (add_to_cache kv c) (c.data 0).key = none) := by
  have hmiss : cache_index c kv.key = none := cache_index_eq_none.mpr hnew
  have hge : c.capacity ≥ MAX_CACHE_SIZE := by omega
  have hdata : ∀ j, 1 ≤ j → j < MAX_CACHE_SIZE → (add_to_cache kv c).data j = c.data j := by
    intro j h1 h2
    have hj0 : j ≠ 0 := by omega
    have hj1 : j < 1 + (c.capacity - 1) := by omega
    have hj2 : j - 1 < c.capacity - 1 := by omega
    have hj3 : 1 + (j - 1) = j := by omega
    simp [add_to_cache, hmiss, hge, memcpy, memmove, hj0, h1, hj1, hj2, hj3]
  have hcap : (add_to_cache kv c).capacity = MAX_CACHE_SIZE := by
    simp [add_to_cache, hmiss, hge, hfull]
  refine ⟨hcap, (add_to_cache_miss_front hmiss).1, hdata, ?_⟩
  intro hdist
  rw [cache_index_eq_none]
  intro i hi
  rw [hcap] at hi
  rcases Nat.eq_zero_or_pos i with rfl | hpos
  · rw [(add_to_cache_miss_front hmiss).1]
    exact fun h => hnew 0 (by unfold MAX_CACHE_SIZE at hfull; omega) h.symm
  · rw [hdata i hpos hi]
    exact hdist i hpos hi

theorem add_to_cache_full_witness :
    (add_to_cache ⟨"new", "1", "t", "t"⟩ full_cache).data 0 = ⟨"new", "1", "t", "t"⟩ ∧
    (add_to_cache ⟨"new", "1", "t", "t"⟩ full_cache).data 999 = full_cache.data 999 ∧
    (add_to_cache ⟨"new", "1", "t", "t"⟩ full_cache).capacity = MAX_CACHE_SIZE :=
  have h := add_to_cache_full ⟨"new", "1", "t", "t"⟩ full_cache rfl
    (fun i _ => full_cache_key_ne i)
  ⟨h.2.1, h.2.2.1 999 (by decide) (by decide), h.1⟩

/-- Claim C7 (cache lookup), evaluated at a failing input. In the cache with the entries
`a` (index 0) and `b` (index 1), `get_from_cache` for `b` returns the pointer to index 1,
through which the caller reads the record of `a`; afterwards both live entries are `a` and
the key `b` is no longer cached. -/
theorem get_from_cache_wrong_record :
    (get_from_cache "b" two_entries).1 = some 1 ∧
    cached_record "b" two_entries = some ⟨"a", "1", "t1", "t1"⟩ ∧
    (get_from_cache "b" two_entries).2.live
      = [⟨"a", "1", "t1", "t1"⟩, ⟨"a", "1", "t1", "t1"⟩] ∧
    cache_index (get_from_cache "b" two_entries).2 "b" = none := by
  decide

/-- Claim C8 (cache write-touch), evaluated at a failing input. In the cache with the
entries `a` (index 0) and `b` (index 1), `add_to_cache` of a record with key `b`, value `9`
and `last_set` `t7` leaves `a` at the front and at index 1: no entry has the key `b` or
the value `9` afterwards. -/
theorem add_to_cache_loses_entry :
    (add_to_cache ⟨"b", "9", "t2", "t7"⟩ two_entries).live
      = [⟨"a", "1", "t1", "t1"⟩, ⟨"a", "1", "t1", "t1"⟩] ∧
    (add_to_cache ⟨"b", "9", "t2", "t7"⟩ two_entries).capacity = 2 ∧
    cache_index (add_to_cache ⟨"b", "9", "t2", "t7"⟩ two_entries) "b" = none := by
  decide

/-! ## The claims about `get_value` and the single-key scenario -/

/-- Claim C9 (get on a cache miss). Without a lock file, with `kvdb.dat` opened and the
key `k` in no live cache entry: if the log has a record for `k`, `get_value` prints the
value of the first such record, leaves the log as it was and leaves that record at the
front of the cache; if the log has no record for `k`, it prints `Key not found` and leaves
the log and the cache as they were. -/
theorem get_value_cache_miss (env : Env) (k : String) (s : Store) (log : List KeyValue)
    (hlock : env.lock_file = false) (hopen : env.db_open = true) (hdb : s.db = some log)
    (hmiss : ∀ kv ∈ s.cache.live, kv.key ≠ k) :
    (∀ pre kv post, log = pre ++ kv :: post → kv.key = k → (∀ x ∈ pre, x.key ≠ k) →
      (get_value env k s).out = [Msg.value kv.value] ∧
      (get_value env k s).store.db = some log ∧
      (get_value env k s).store.cache.data 0 = kv ∧
      0 < (get_value env k s).store.cache.capacity) ∧
    ((∀ x ∈ log, x.key ≠ k) →
      (get_value env k s).out = [Msg.key_not_found] ∧
      (get_value env k s).store.db = some log ∧
      (get_value env k s).store.cache = s.cache) := by
  have hidx : cache_index s.cache k = none := cache_index_live_none.mpr hmiss
  have hget : get_from_cache k s.cache = (none, s.cache) := get_from_cache_miss hidx
  have hex : open_existing env s = some log := by simp [open_existing, hopen, hdb]
  constructor
  · intro pre kv post hlog hkey hpre
    have hf : find_record k log = some (pre.length, kv) := by
      rw [hlog]
      exact find_record_of_split hkey hpre
    have hidx1 : cache_index s.cache kv.key = none := by rw [hkey]; exact hidx
    have hval : get_value env k s =
        { store := { db := s.db, cache := add_to_cache kv s.cache },
          out := [Msg.value kv.value], locks := [LockOp.acquire, LockOp.release] } := by
      simp only [get_value, hlock, hget, hex, hf]
      rfl
    rw [hval]
    exact ⟨rfl, hdb, (add_to_cache_miss_front hidx1).1, (add_to_cache_miss_front hidx1).2⟩
  · intro hnone
    have hf : find_record k log = none := find_record_eq_none.mpr hnone
    have hval : get_value env k s =
        { store := { db := s.db, cache := s.cache },
          out := [Msg.key_not_found], locks := [LockOp.acquire, LockOp.release] } := by
      simp only [get_value, hlock, hget, hex, hf]
      rfl
    rw [hval]
    exact ⟨rfl, hdb, rfl⟩

theorem get_value_cache_miss_witness :
    (get_value (Env.ok "t5") "k" demo_store).out = [Msg.value "2"] ∧
    (get_value (Env.ok "t5") "k" demo_store).store.db = some demo_log ∧
    (get_value (Env.ok "t5") "k" demo_store).store.cache.data 0 = ⟨"k", "2", "t2", "t3"⟩ ∧
    0 < (get_value (Env.ok "t5") "k" demo_store).store.cache.capacity :=
  (get_value_cache_miss (Env.ok "t5") "k" demo_store demo_log rfl rfl rfl (by decide)).1
    [⟨"a", "1", "t1", "t1"⟩] ⟨"k", "2", "t2", "t3"⟩ [⟨"b", "3", "t4", "t4"⟩] rfl rfl
    (by decide)

/-! ### A store holding one record, cached at the front -/

theorem set_value_first (t k v : String) (s : Store) (h0 : s.empty)
    (hk : k.utf8ByteSize ≤ 255) (hv : v.utf8ByteSize ≤ 255) :
    ∃ r, set_value (Env.ok t) k v s = some r ∧ r.out = [] ∧
      r.store.db = some [⟨k, v, t, t⟩] ∧ r.store.cache.capacity = 1 ∧
      r.store.cache.data 0 = ⟨k, v, t, t⟩ := by
  have hk1 : strcpy MAX_KEY_LENGTH k = some k := strcpy_fits (by unfold MAX_KEY_LENGTH; omega)
  have hv1 : strcpy MAX_VALUE_LENGTH v = some v :=
    strcpy_fits (by unfold MAX_VALUE_LENGTH; omega)
  have hidx : cache_index s.cache k = none :=
    cache_index_eq_none.mpr (fun i hi => by rw [h0.2] at hi; omega)
  refine ⟨_, by simp only [set_value, Env.ok, h0.1, find_record, hk1, hv1]; rfl, rfl, rfl, ?_, ?_⟩
  · simp [add_to_cache, hidx, h0.2, MAX_CACHE_SIZE]
  · simp [add_to_cache, hidx, h0.2, MAX_CACHE_SIZE, memcpy]

theorem cache_index_single {c : Cache} {k : String} (hcap : c.capacity = 1)
    (hkey : (c.data 0).key = k) : cache_index c k = some 0 :=
  cache_index_eq_some.mpr ⟨by omega, hkey, fun j hj => by omega⟩

theorem get_from_cache_single {c : Cache} {k : String} (hcap : c.capacity = 1)
    (hkey : (c.data 0).key = k) :
    (get_from_cache k c).1 = some 0 ∧ (get_from_cache k c).2.capacity = 1 ∧
      (get_from_cache k c).2.data 0 = c.data 0 := by
  simp [get_from_cache, cache_index_single hcap hkey, hcap, memcpy, memmove]

theorem get_value_single (t k : String) (s : Store) (kv : KeyValue)
    (hdb : s.db = some [kv]) (hcap : s.cache.capacity = 1) (hfront : s.cache.data 0 = kv)
    (hkey : kv.key = k) :
    (get_value (Env.ok t) k s).out = [Msg.cached_value kv.value] ∧
      (get_value (Env.ok t) k s).store.db = some [kv] ∧
      (get_value (Env.ok t) k s).store.cache.capacity = 1 ∧
      (get_value (Env.ok t) k s).store.cache.data 0 = kv := by
  have hk0 : (s.cache.data 0).key = k := by rw [hfront]; exact hkey
  simp [get_value, Env.ok, get_from_cache, cache_index_single hcap hk0, hcap, memcpy, memmove,
    hfront, hdb]

theorem timestamp_value_single (t k : String) (s : Store) (kv : KeyValue)
    (hdb : s.db = some [kv]) (hcap : s.cache.capacity = 1) (hfront : s.cache.data 0 = kv)
    (hkey : kv.key = k) :
    (timestamp_value (Env.ok t) k s).out
        = [Msg.cached_timestamps kv.first_set_timestamp kv.last_set_timestamp] ∧
      (timestamp_value (Env.ok t) k s).store.db = some [kv] ∧
      (timestamp_value (Env.ok t) k s).store.cache.capacity = 1 ∧
      (timestamp_value (Env.ok t) k s).store.cache.data 0 = kv := by
  have hk0 : (s.cache.data 0).key = k := by rw [hfront]; exact hkey
  simp [timestamp_value, get_from_cache, cache_index_single hcap hk0, hcap, memcpy, memmove,
    hfront, hdb]

theorem set_value_single (t k v : String) (s : Store) (kv : KeyValue)
    (hdb : s.db = some [kv]) (hcap : s.cache.capacity = 1) (hfront : s.cache.data 0 = kv)
    (hkey : kv.key = k) (hv : v.utf8ByteSize ≤ 255) :
    ∃ r, set_value (Env.ok t) k v s = some r ∧ r.out = [Msg.rewrite] ∧
      r.store.db = some [⟨k, v, kv.first_set_timestamp, t⟩] ∧ r.store.cache.capacity = 1 ∧
      r.store.cache.data 0 = ⟨k, v, kv.first_set_timestamp, t⟩ := by
  subst hkey
  have hv1 : strcpy MAX_VALUE_LENGTH v = some v :=
    strcpy_fits (by unfold MAX_VALUE_LENGTH; omega)
  have hk0 : (s.cache.data 0).key = kv.key := by rw [hfront]
  have hf : find_record kv.key s.records = some (0, kv) := by
    simp [Store.records, hdb, find_record]
  refine ⟨_, by simp only [set_value, Env.ok, hf, hv1]; rfl, rfl, ?_, ?_, ?_⟩
  · simp [Store.records, hdb]
  · simp [add_to_cache, cache_index_single hcap hk0, hcap]
  · simp [add_to_cache, cache_index_single hcap hk0, hcap, memcpy, memmove, hfront]

theorem delete_value_single (t k : String) (s : Store) (kv : KeyValue)
    (hdb : s.db = some [kv]) (hcap : s.cache.capacity = 1) (hfront : s.cache.data 0 = kv)
    (hkey : kv.key = k) :
    (delete_value (Env.ok t) k s).out = [] ∧
      (delete_value (Env.ok t) k s).store.db = some [] ∧
      (delete_value (Env.ok t) k s).store.cache.capacity = 0 := by
  have hk0 : (s.cache.data 0).key = k := by rw [hfront]; exact hkey
  simp [delete_value, Env.ok, open_existing, hdb, delete_loop, hkey, delete_from_cache,
    cache_index_single hcap hk0, hcap]

theorem get_value_nothing (t k : String) (s : Store) (hdb : s.db = some [])
    (hcap : s.cache.capacity = 0) :
    (get_value (Env.ok t) k s).out = [Msg.key_not_found] := by
  have hidx : cache_index s.cache k = none :=
    cache_index_eq_none.mpr (fun i hi => by rw [hcap] at hi; omega)
  simp [get_value, Env.ok, get_from_cache, hidx, open_existing, hdb, find_record]

/-- Claim C10 (single-key scenario). From an empty log and an empty cache, with a key and
values of at most 255 bytes and without a lock file or a failing system call:
`set k v1` at `t1` prints nothing and `get k` reports `v1`; `set k v2` at `t2` rewrites the
record and `get k` reports `v2`; `ts k` reports `first_set = t1` and `last_set = t2`;
`del k` prints nothing and the `get k` after it reports `Key not found`. The times of the
calls other than `set_value` play no part. -/
theorem single_key_scenario (s0 : Store) (k v1 v2 t1 t2 u1 u2 u3 u4 u5 : String)
    (h0 : s0.empty) (hk : k.utf8ByteSize ≤ 255) (hv1 : v1.utf8ByteSize ≤ 255)
    (hv2 : v2.utf8ByteSize ≤ 255) :
    trace [(Env.ok t1, Call.set k v1), (Env.ok u1, Call.get k),
           (Env.ok t2, Call.set k v2), (Env.ok u2, Call.get k),
           (Env.ok u3, Call.ts k), (Env.ok u4, Call.del k), (Env.ok u5, Call.get k)] s0
      = some [[], [Msg.cached_value v1], [Msg.rewrite], [Msg.cached_value v2],
              [Msg.cached_timestamps t1 t2], [], [Msg.key_not_found]] := by
  obtain ⟨r1, hr1, ho1, hd1, hc1, hf1⟩ := set_value_first t1 k v1 s0 h0 hk hv1
  obtain ⟨ho2, hd2, hc2, hf2⟩ := get_value_single u1 k r1.store _ hd1 hc1 hf1 rfl
  obtain ⟨r3, hr3, ho3, hd3, hc3, hf3⟩ :=
    set_value_single t2 k v2 (get_value (Env.ok u1) k r1.store).store _ hd2 hc2 hf2 rfl hv2
  obtain ⟨ho4, hd4, hc4, hf4⟩ := get_value_single u2 k r3.store _ hd3 hc3 hf3 rfl
  obtain ⟨ho5, hd5, hc5, hf5⟩ :=
    timestamp_value_single u3 k (get_value (Env.ok u2) k r3.store).store _ hd4 hc4 hf4 rfl
  obtain ⟨ho6, hd6, hc6⟩ :=
    delete_value_single u4 k
      (timestamp_value (Env.ok u3) k (get_value (Env.ok u2) k r3.store).store).store _
      hd5 hc5 hf5 rfl
  have ho7 := get_value_nothing u5 k _ hd6 hc6
  simp [trace, Call.result, hr1, hr3, ho1, ho2, ho3, ho4, ho5, ho6, ho7]

theorem single_key_scenario_witness :
    trace [(Env.ok "t1", Call.set "apple" "1"), (Env.ok "t1", Call.get "apple"),
           (Env.ok "t2", Call.set "apple" "2"), (Env.ok "t2", Call.get "apple"),
           (Env.ok "t2", Call.ts "apple"), (Env.ok "t3", Call.del "apple"),
           (Env.ok "t3", Call.get "apple")] Store.fresh
      = some [[], [Msg.cached_value "1"], [Msg.rewrite], [Msg.cached_value "2"],
              [Msg.cached_timestamps "t1" "t2"], [], [Msg.key_not_found]] :=
  single_key_scenario Store.fresh "apple" "1" "2" "t1" "t2" "t1" "t2" "t2" "t3" "t3"
    ⟨rfl, rfl⟩ (by decide) (by decide) (by decide)

/-! ## The claims about the bounds of the cache -/

theorem capacity_step (op : CacheOp) (c : Cache) (h : c.capacity ≤ MAX_CACHE_SIZE) :
    (op.apply c).capacity ≤ MAX_CACHE_SIZE := by
  cases op with
  | add kv =>
    simp only [CacheOp.apply, add_to_cache]
    cases cache_index c kv.key with
    | some i => exact h
    | none =>
      by_cases hfull : c.capacity ≥ MAX_CACHE_SIZE
      · simpa [hfull] using h
      · simp only [hfull, if_false]
        omega
  | get key =>
    simp only [CacheOp.apply, get_from_cache]
    cases cache_index c key with
    | some i => exact h
    | none => exact h
  | del key =>
    simp only [CacheOp.apply, delete_from_cache]
    cases cache_index c key with
    | some i => exact Nat.le_trans (Nat.sub_le _ _) h
    | none => exact h

theorem run_cache_capacity (ops : List CacheOp) (c : Cache)
    (h : c.capacity ≤ MAX_CACHE_SIZE) : (run_cache ops c).capacity ≤ MAX_CACHE_SIZE := by
  induction ops generalizing c with
  | nil => exact h
  | cons op rest ih => exact ih (op.apply c) (capacity_step op c h)

theorem extent_le (op : CacheOp) (c : Cache) (h : c.capacity ≤ MAX_CACHE_SIZE) :
    op.extent c ≤ MAX_CACHE_SIZE := by
  cases op with
  | add kv =>
    simp only [CacheOp.extent]
    cases hidx : cache_index c kv.key with
    | some i =>
      have hi := (cache_index_eq_some.mp hidx).1
      simp only [span_end]
      split <;> omega
    | none =>
      simp only [span_end]
      unfold MAX_CACHE_SIZE at h ⊢
      repeat' split
      all_goals omega
  | get key =>
    simp only [CacheOp.extent]
    cases hidx : cache_index c key with
    | some i =>
      have hi := (cache_index_eq_some.mp hidx).1
      simp only [span_end]
      split <;> omega
    | none => exact h
  | del key =>
    simp only [CacheOp.extent]
    cases hidx : cache_index c key with
    | some i =>
      have hi := (cache_index_eq_some.mp hidx).1
      simp only [span_end]
      split <;> omega
    | none => exact h

/-- Claim C11 (capacity bound). From a cache without live entries, after every sequence
of `add_to_cache`, `get_from_cache` and `delete_from_cache` calls the live entry count is at
most `MAX_CACHE_SIZE`; the count is positive whenever a key is found, so the decrement in
`delete_from_cache` never takes it below zero; and every index the next call of a cache
routine reads or writes is below `MAX_CACHE_SIZE`. -/
theorem capacity_bound (ops : List CacheOp) (c0 : Cache) (h0 : c0.capacity = 0) :
    (run_cache ops c0).capacity ≤ MAX_CACHE_SIZE ∧
    (∀ key i, cache_index (run_cache ops c0) key = some i →
      i < (run_cache ops c0).capacity ∧ 0 < (run_cache ops c0).capacity) ∧
    (∀ op : CacheOp, op.extent (run_cache ops c0) ≤ MAX_CACHE_SIZE) := by
  have hcap : (run_cache ops c0).capacity ≤ MAX_CACHE_SIZE :=
    run_cache_capacity ops c0 (by rw [h0]; exact Nat.zero_le _)
  refine ⟨hcap, ?_, fun op => extent_le op _ hcap⟩
  intro key i hidx
  have hi := (cache_index_eq_some.mp hidx).1
  exact ⟨hi, by omega⟩

theorem capacity_bound_witness :
    (run_cache [CacheOp.add ⟨"a", "1", "t1", "t1"⟩, CacheOp.get "a", CacheOp.del "a",
        CacheOp.add ⟨"b", "2", "t2", "t2"⟩] Store.fresh.cache).capacity ≤ MAX_CACHE_SIZE :=
  (capacity_bound _ Store.fresh.cache rfl).1

/-! ## The claims about oversize input and about the lock -/

/-- Claim C12 (oversize input is rejected) fails at concrete inputs. With a key of 256
bytes, or a value of 256 bytes, on a fresh store the call is not rejected: it reaches the
`strcpy` into the 256-byte buffer, which the text does not fit, and has no defined result.
When `kvdb.dat` cannot be opened, the call with the oversize key has taken and released
the lock and printed `Error opening database file`: the database is accessed before
anything looks at the length. -/
theorem oversize_not_rejected :
    (set_value (Env.ok "t1") long_text "1" Store.fresh).isNone = true ∧
    (set_value (Env.ok "t1") "k" long_text Store.fresh).isNone = true ∧
    (set_value (Env.unopened "t1") long_text "1" Store.fresh).map
        (fun r => (r.out, r.locks))
      = some ([Msg.open_error], [LockOp.acquire, LockOp.release]) := by
  have hk : strcpy MAX_KEY_LENGTH long_text = none := by
    simp [strcpy, long_text_size, MAX_KEY_LENGTH]
  refine ⟨?_, ?_, ?_⟩
  · simp [set_value, Env.ok, Store.fresh, Store.records, find_record, hk]
  · simp [set_value, Env.ok, Store.fresh, Store.records, find_record, strcpy_long_text]
  · simp [set_value, Env.unopened, Env.ok]

/-- Claim C12, amended: `set_value` has no length check. For a key and a value of any
length: with `kvdb.lock` present the call prints the busy line and leaves the store as it
was; when `kvdb.dat` cannot be opened it takes and releases the lock, prints the open error
and leaves the store as it was; otherwise it scans the log and copies with `strcpy`, and it
has a defined result exactly when the value has at most 255 bytes and the key is in the log
or has at most 255 bytes. Whenever the call returns, the store is as it was or the log
holds a record with the whole key and the whole value: nothing is truncated. -/
theorem set_value_no_length_check (env : Env) (k v : String) (s : Store) :
    (env.lock_file = true →
      set_value env k v s = some { store := s, out := [Msg.busy], locks := [] }) ∧
    (env.lock_file = false → env.db_open = false →
      set_value env k v s
        = some { store := s, out := [Msg.open_error],
                 locks := [LockOp.acquire, LockOp.release] }) ∧
    (env.lock_file = false → env.db_open = true →
      ((set_value env k v s).isSome = true ↔
        v.utf8ByteSize ≤ 255 ∧ (k.utf8ByteSize ≤ 255 ∨ ∃ kv ∈ s.records, kv.key = k))) ∧
    (∀ r, set_value env k v s = some r →
      r.store = s ∨ ∃ kv ∈ r.store.records, kv.key = k ∧ kv.value = v) := by
  refine ⟨?_, ?_, ?_, ?_⟩
  · intro h
    simp [set_value, h]
  · intro h1 h2
    simp [set_value, h1, h2]
  · intro h1 h2
    cases hf : find_record k s.records with
    | none =>
      have hnone := find_record_eq_none.mp hf
      simp only [set_value, h1, h2, hf, strcpy, MAX_KEY_LENGTH, MAX_VALUE_LENGTH]
      by_cases hk : k.utf8ByteSize < 256 <;> by_cases hv : v.utf8ByteSize < 256
      · simp only [hk, hv, if_true]
        constructor
        · intro _
          exact ⟨by omega, Or.inl (by omega)⟩
        · intro _
          rfl
      · simp only [hk, hv, if_true, if_false]
        constructor
        · intro h
          cases h
        · rintro ⟨h, _⟩
          omega
      · simp only [hk, if_false]
        constructor
        · intro h
          cases h
        · rintro ⟨_, h | ⟨kv, hkv, hkey⟩⟩
          · omega
          · exact absurd hkey (hnone kv hkv)
      · simp only [hk, if_false]
        constructor
        · intro h
          cases h
        · rintro ⟨h, _⟩
          omega
    | some p =>
      obtain ⟨i, kv⟩ := p
      obtain ⟨pre, post, hlog, _, hkey, _⟩ := find_record_eq_some hf
      have hmem : ∃ x ∈ s.records, x.key = k := ⟨kv, by simp [hlog], hkey⟩
      simp only [set_value, h1, h2, hf, strcpy, MAX_VALUE_LENGTH]
      by_cases hv : v.utf8ByteSize < 256
      · simp only [hv, if_true]
        constructor
        · intro _
          exact ⟨by omega, Or.inr hmem⟩
        · intro _
          rfl
      · simp only [hv, if_false]
        constructor
        · intro h
          cases h
        · rintro ⟨h, _⟩
          omega
  · intro r hr
    rcases set_value_cases hr with ⟨_, hs⟩ | ⟨_, _, _, pre, old, post, _, hkey, _, hdb⟩ |
      ⟨_, _, _, _, _, hdb⟩
    · exact Or.inl hs
    · refine Or.inr ⟨{ old with last_set_timestamp := env.now, value := v }, ?_, hkey, rfl⟩
      simp [Store.records, hdb]
    · refine Or.inr ⟨⟨k, v, env.now, env.now⟩, ?_, rfl, rfl⟩
      simp [Store.records, hdb]

theorem set_value_no_length_check_witness :
    set_value (Env.locked "t1") long_text long_text demo_store
      = some { store := demo_store, out := [Msg.busy], locks := [] } :=
  (set_value_no_length_check (Env.locked "t1") long_text long_text demo_store).1 rfl

/-- Claim C13 (lock release on every exit path). Every call makes either no lock call at
all or one `acquire_lock` followed by one `release_lock`. `set_value` makes none exactly
when the lock-file check stops it, `get_value` makes none exactly when the lock-file check
stops it or the cache has the key, `timestamp_value` makes none exactly when the cache has
the key, and `delete_value` always takes and releases the lock, whatever fails. -/
theorem lock_released (env : Env) (k v : String) (s : Store) :
    (∀ r, set_value env k v s = some r →
      r.locks = if env.lock_file then [] else [LockOp.acquire, LockOp.release]) ∧
    (get_value env k s).locks
      = (if env.lock_file || (cache_index s.cache k).isSome then []
         else [LockOp.acquire, LockOp.release]) ∧
    (delete_value env k s).locks = [LockOp.acquire, LockOp.release] ∧
    (timestamp_value env k s).locks
      = (if (cache_index s.cache k).isSome then [] else [LockOp.acquire, LockOp.release]) := by
  refine ⟨?_, ?_, ?_, ?_⟩
  · intro r hr
    unfold set_value at hr
    by_cases h1 : env.lock_file = true
    · simp only [h1, if_true, Option.some.injEq] at hr
      simp [h1, ← hr]
    · by_cases h2 : env.db_open = true
      · simp only [h1, h2, Bool.not_true, if_false, Bool.false_eq_true] at hr
        cases hf : find_record k s.records with
        | none =>
          simp only [hf, Option.bind_eq_some, Option.map_eq_some'] at hr
          obtain ⟨_, _, _, _, hr⟩ := hr
          simp [h1, ← hr]
        | some p =>
          simp only [hf, Option.map_eq_some'] at hr
          obtain ⟨_, _, hr⟩ := hr
          simp [h1, ← hr]
      · simp only [h1, h2, Bool.not_false, if_true, if_false, Option.some.injEq,
          Bool.false_eq_true] at hr
        simp [h1, ← hr]
  · unfold get_value get_from_cache
    by_cases h1 : env.lock_file = true
    · simp [h1]
    · cases hidx : cache_index s.cache k with
      | some i => simp [h1]
      | none =>
        simp only [h1, if_false]
        repeat' split
        all_goals simp_all
  · unfold delete_value
    repeat' split
    all_goals rfl
  · unfold timestamp_value get_from_cache
    cases hidx : cache_index s.cache k with
    | some i => simp
    | none =>
      simp only []
      repeat' split
      all_goals simp_all

theorem lock_released_witness :
    (set_value (Env.ok "t5") "k" "new" demo_store).map (fun r => r.locks)
      = some [LockOp.acquire, LockOp.release] := by
  obtain ⟨r, hr⟩ := set_value_total (Env.ok "t5") "k" "new" demo_store (by decide) (by decide)
  rw [hr]
  exact congrArg some ((lock_released (Env.ok "t5") "k" "new" demo_store).1 r hr)

/-! ## The claims about the frame of `set_value` and about the timestamps -/

/-- Claim C14 (set leaves other records alone) as it is stated, for every log, key and
value, fails at concrete inputs: for the key `z`, absent from the log of three records,
the number of records does not grow when `kvdb.lock` is present or when `kvdb.dat` cannot
be opened, and with a value of 256 bytes the call has no defined result. -/
theorem set_value_frame_fails :
    (set_value (Env.locked "t9") "z" "new" demo_store).map
        (fun r => r.store.records.length) = some 3 ∧
    (set_value (Env.unopened "t9") "z" "new" demo_store).map
        (fun r => r.store.records.length) = some 3 ∧
    (set_value (Env.ok "t9") "z" long_text demo_store).isNone = true := by
  have hf : find_record "z" demo_store.records = none := by decide
  exact ⟨by decide, by decide, by simp [set_value, Env.ok, hf, strcpy_long_text]⟩

/-- Claim C14, amended: for a key and a value of at most 255 bytes `set_value` returns,
and then every record of the old log whose key differs from `k` is at the same position
in the new log with the same content, no record with another key is new, the number of
records is unchanged when `k` was present, and when `k` was absent, no lock file is
present and `kvdb.dat` opens, the new log is the old one followed by the new record. -/
theorem set_value_frame (env : Env) (k v : String) (s : Store)
    (hk : k.utf8ByteSize ≤ 255) (hv : v.utf8ByteSize ≤ 255) :
    ∃ r, set_value env k v s = some r ∧
      (∀ (j : Nat) (kv : KeyValue), s.records[j]? = some kv → kv.key ≠ k → r.store.records[j]? = some kv) ∧
      (∀ (j : Nat) (kv : KeyValue), r.store.records[j]? = some kv → kv.key ≠ k → s.records[j]? = some kv) ∧
      ((∃ x ∈ s.records, x.key = k) → r.store.records.length = s.records.length) ∧
      ((∀ x ∈ s.records, x.key ≠ k) → env.lock_file = false → env.db_open = true →
        r.store.records = s.records ++ [⟨k, v, env.now, env.now⟩]) := by
  obtain ⟨r, hr⟩ := set_value_total env k v s hk hv
  refine ⟨r, hr, ?_⟩
  rcases set_value_cases hr with ⟨hfail, hs⟩ | ⟨_, _, _, pre, old, post, hlog, hkey, hpre, hdb⟩ |
    ⟨_, _, _, _, hnone, hdb⟩
  · rw [hs]
    refine ⟨fun _ _ h _ => h, fun _ _ h _ => h, fun _ => rfl, ?_⟩
    intro _ h1 h2
    rcases hfail with h | h
    · rw [h1] at h; cases h
    · rw [h2] at h; cases h
  · have hrec : r.store.records
        = s.records.set pre.length { old with last_set_timestamp := env.now, value := v } := by
      simp only [Store.records, hdb, Option.getD_some]
      rw [← Store.records, hlog, set_split]
    have hold : s.records[pre.length]? = some old := by
      rw [hlog, List.getElem?_append_right (Nat.le_refl _)]
      simp
    refine ⟨?_, ?_, ?_, ?_⟩
    · intro j kv hj hne
      by_cases hjp : pre.length = j
      · rw [← hjp, hold] at hj
        cases hj
        exact absurd hkey hne
      · rw [hrec, List.getElem?_set_ne hjp]
        exact hj
    · intro j kv hj hne
      by_cases hjp : pre.length = j
      · have hlt : pre.length < s.records.length := by simp [hlog]
        rw [hrec, ← hjp, List.getElem?_set_self hlt] at hj
        simp only [Option.some.injEq] at hj
        rw [← hj] at hne
        exact absurd hkey hne
      · rw [hrec, List.getElem?_set_ne hjp] at hj
        exact hj
    · intro _
      rw [hrec, List.length_set]
    · intro hnone _ _
      exact absurd hkey (hnone old (by simp [hlog]))
  · have hrec : r.store.records = s.records ++ [⟨k, v, env.now, env.now⟩] := by
      simp [Store.records, hdb]
    refine ⟨?_, ?_, ?_, fun _ _ _ => hrec⟩
    · intro j kv hj _
      have hlt : j < s.records.length := (List.getElem?_eq_some.mp hj).1
      rw [hrec, List.getElem?_append_left hlt]
      exact hj
    · intro j kv hj hne
      rw [hrec] at hj
      by_cases hlt : j < s.records.length
      · rw [List.getElem?_append_left hlt] at hj
        exact hj
      · rw [List.getElem?_append_right (by omega)] at hj
        have hmem : kv ∈ [(⟨k, v, env.now, env.now⟩ : KeyValue)] := List.mem_iff_getElem?.mpr ⟨_, hj⟩
        simp only [List.mem_singleton] at hmem
        rw [hmem] at hne
        exact absurd rfl hne
    · rintro ⟨x, hx, hxk⟩
      exact absurd hxk (hnone x hx)

theorem set_value_frame_witness :
    ∃ r, set_value (Env.ok "t9") "z" "new" demo_store = some r ∧
      r.store.records = demo_log ++ [⟨"z", "new", "t9", "t9"⟩] := by
  obtain ⟨r, hr, _, _, _, happ⟩ :=
    set_value_frame (Env.ok "t9") "z" "new" demo_store (by decide) (by decide)
  exact ⟨r, hr, happ (by decide) rfl rfl⟩

theorem timestamps_step (env : Env) (c : Call) (s : Store) (r : Result) (rest : List String)
    (hinv : ∀ kv ∈ s.records, kv.first_set_timestamp ≤ kv.last_set_timestamp ∧
      kv.last_set_timestamp ≤ env.now ∧ ∀ t ∈ rest, kv.last_set_timestamp ≤ t)
    (hnow : ∀ t ∈ rest, env.now ≤ t) (h : c.result env s = some r) :
    ∀ kv ∈ r.store.records, kv.first_set_timestamp ≤ kv.last_set_timestamp ∧
      ∀ t ∈ rest, kv.last_set_timestamp ≤ t := by
  have hweak : ∀ kv ∈ s.records, kv.first_set_timestamp ≤ kv.last_set_timestamp ∧
      ∀ t ∈ rest, kv.last_set_timestamp ≤ t := fun kv hkv => ⟨(hinv kv hkv).1, (hinv kv hkv).2.2⟩
  cases c with
  | set k v =>
    rcases set_value_cases h with ⟨_, hs⟩ | ⟨_, _, _, pre, old, post, hlog, _, _, hdb⟩ |
      ⟨_, _, _, _, _, hdb⟩
    · rw [hs]; exact hweak
    · intro kv hkv
      simp only [Store.records, hdb, Option.getD_some, List.mem_append, List.mem_cons] at hkv
      rcases hkv with hkv | rfl | hkv
      · exact hweak kv (by rw [hlog]; simp [hkv])
      · have hold := hinv old (by rw [hlog]; simp)
        exact ⟨le_trans hold.1 hold.2.1, hnow⟩
      · exact hweak kv (by rw [hlog]; simp [hkv])
    · intro kv hkv
      simp only [Store.records, hdb, Option.getD_some, List.mem_append, List.mem_singleton]
        at hkv
      rcases hkv with hkv | rfl
      · exact hweak kv hkv
      · exact ⟨le_refl _, hnow⟩
  | get k =>
    simp only [Call.result, Option.some.injEq] at h
    rw [← h, Store.records, get_value_db]
    exact hweak
  | del k =>
    simp only [Call.result, Option.some.injEq] at h
    rw [← h]
    exact fun kv hkv => hweak kv ((delete_value_sublist env k s).subset hkv)
  | ts k =>
    simp only [Call.result, Option.some.injEq] at h
    rw [← h, Store.records, timestamp_value_db]
    exact hweak

theorem timestamps_run (calls : List (Env × Call)) (s s1 : Store)
    (hinv : ∀ kv ∈ s.records, kv.first_set_timestamp ≤ kv.last_set_timestamp ∧
      ∀ c ∈ calls, kv.last_set_timestamp ≤ c.1.now)
    (htimes : (calls.map (fun c => c.1.now)).Pairwise (fun a b => a ≤ b))
    (h : run calls s = some s1) :
    ∀ kv ∈ s1.records, kv.first_set_timestamp ≤ kv.last_set_timestamp := by
  induction calls generalizing s with
  | nil =>
    simp only [run, Option.some.injEq] at h
    rw [← h]
    exact fun kv hkv => (hinv kv hkv).1
  | cons c rest ih =>
    obtain ⟨env, call⟩ := c
    simp only [run, Option.bind_eq_some] at h
    obtain ⟨r, hr, hrun⟩ := h
    simp only [List.map_cons, List.pairwise_cons] at htimes
    have hstep := timestamps_step env call s r (rest.map (fun c => c.1.now))
      (fun kv hkv => ⟨(hinv kv hkv).1, (hinv kv hkv).2 (env, call) (List.mem_cons_self _ _),
        fun t ht => by
          obtain ⟨c, hc, rfl⟩ := List.mem_map.mp ht
          exact (hinv kv hkv).2 c (List.mem_cons_of_mem _ hc)⟩)
      htimes.1 hr
    exact ih r.store
      (fun kv hkv => ⟨(hstep kv hkv).1,
        fun c hc => (hstep kv hkv).2 _ (List.mem_map.mpr ⟨c, hc, rfl⟩)⟩)
      htimes.2 hrun

/-- Claim C15 (timestamp order). From an empty log, when the times of the calls do not
decrease along the sequence, every record of the log a sequence of calls ends with has
`first_set ≤ last_set`, the texts being compared character by character, which for the
fixed pattern `YYYY-MM-DD HH:MM:SS` is the order of time; and a sequence whose keys and
values have at most 255 bytes does end. The calls may be `get_value` and `timestamp_value`
as well as `set_value` and `delete_value`. -/
theorem timestamps_ordered (calls : List (Env × Call)) (s0 : Store) (h0 : s0.records = [])
    (htimes : (calls.map (fun c => c.1.now)).Pairwise (fun a b => a ≤ b)) :
    (∀ s, run calls s0 = some s →
      ∀ kv ∈ s.records, kv.first_set_timestamp ≤ kv.last_set_timestamp) ∧
    ((∀ c ∈ calls, c.2.fits) → ∃ s, run calls s0 = some s) :=
  ⟨fun s hs => timestamps_run calls s0 s (by simp [h0]) htimes hs,
   fun hfit => run_total calls s0 hfit⟩

theorem timestamps_ordered_witness :
    ∃ s, run timed_calls Store.fresh = some s ∧
      ∀ kv ∈ s.records, kv.first_set_timestamp ≤ kv.last_set_timestamp := by
  have h := timestamps_ordered timed_calls Store.fresh rfl
    (by simp only [timed_calls, Env.ok, List.map_cons, List.map_nil, List.pairwise_cons,
          List.mem_cons, List.mem_singleton, List.not_mem_nil, forall_eq_or_imp, forall_eq,
          String.le_iff_toList_le, List.Pairwise.nil, false_imp_iff, implies_true, and_true]
        decide)
  obtain ⟨s, hs⟩ := h.2 (by decide)
  exact ⟨s, hs, h.1 s hs⟩

/-! ## The claims about removal from the cache, its invariants and the start-up -/

theorem live_getElem? (c : Cache) (j : Nat) :
    c.live[j]? = if j < c.capacity then some (c.data j) else none := by
  unfold Cache.live
  by_cases h : j < c.capacity
  · simp [h, List.getElem?_range h]
  · have hnone : (List.range c.capacity)[j]? = none :=
      List.getElem?_eq_none (by simp; omega)
    simp [h, hnone]

theorem delete_from_cache_hit {c : Cache} {k : String} {i : Nat}
    (hidx : cache_index c k = some i) :
    (delete_from_cache k c).capacity + 1 = c.capacity ∧
      (delete_from_cache k c).live = c.live.eraseIdx i := by
  have hi := (cache_index_eq_some.mp hidx).1
  have hcap : (delete_from_cache k c).capacity = c.capacity - 1 := by
    simp [delete_from_cache, hidx]
  refine ⟨by rw [hcap]; omega, ?_⟩
  apply List.ext_getElem?
  intro j
  rw [live_getElem?, hcap]
  by_cases hji : j < i
  · rw [List.getElem?_eraseIdx_of_lt _ _ _ hji, live_getElem?]
    have h1 : j < c.capacity - 1 := by omega
    have h2 : j < c.capacity := by omega
    have h3 : ¬ i ≤ j := by omega
    simp [h1, h2, delete_from_cache, hidx, memmove, h3]
  · rw [List.getElem?_eraseIdx_of_ge _ _ _ (by omega), live_getElem?]
    by_cases h1 : j < c.capacity - 1
    · have h2 : j + 1 < c.capacity := by omega
      have h3 : i ≤ j := by omega
      have h4 : j < i + (c.capacity - i - 1) := by omega
      have h5 : i + 1 + (j - i) = j + 1 := by omega
      simp [h1, h2, delete_from_cache, hidx, memmove, h3, h4, h5]
    · have h2 : ¬ j + 1 < c.capacity := by omega
      simp [h1, h2]

/-- Claim C16 (cache remove). When no live entry has the key `k`, `delete_from_cache`
leaves the cache as it is. When a live entry has the key `k`, the first such entry, at
index `i`, is removed: the count drops by one and the live entries are the previous ones
without the entry at index `i`, in the previous order. -/
theorem delete_from_cache_removes (c : Cache) (k : String) :
    ((∀ kv ∈ c.live, kv.key ≠ k) → delete_from_cache k c = c) ∧
    ((∃ kv ∈ c.live, kv.key = k) →
      ∃ i, i < c.capacity ∧ (c.data i).key = k ∧ (∀ j < i, (c.data j).key ≠ k) ∧
        (delete_from_cache k c).capacity + 1 = c.capacity ∧
        (delete_from_cache k c).live = c.live.eraseIdx i) := by
  constructor
  · intro h
    have hidx : cache_index c k = none := cache_index_live_none.mpr h
    simp [delete_from_cache, hidx]
  · rintro ⟨kv, hkv, hkey⟩
    cases hidx : cache_index c k with
    | none => exact absurd hkey (cache_index_live_none.mp hidx kv hkv)
    | some i =>
      obtain ⟨h1, h2, h3⟩ := cache_index_eq_some.mp hidx
      exact ⟨i, h1, h2, h3, delete_from_cache_hit hidx⟩

theorem delete_from_cache_removes_witness :
    ∃ i, i < two_entries.capacity ∧ (two_entries.data i).key = "b" ∧
      (∀ j < i, (two_entries.data j).key ≠ "b") ∧
      (delete_from_cache "b" two_entries).capacity + 1 = two_entries.capacity ∧
      (delete_from_cache "b" two_entries).live = two_entries.live.eraseIdx i :=
  (delete_from_cache_removes two_entries "b").2 ⟨⟨"b", "2", "t2", "t2"⟩, by decide, rfl⟩

/-- Claim C18 (distinct cache keys are preserved), evaluated at a failing input. The
cache with the entries `a` and `b` has pairwise distinct keys; after `get_from_cache` for
`b`, and likewise after `add_to_cache` of a record with key `b`, the two live entries both
have the key `a`. -/
theorem promote_duplicates_key :
    (two_entries.live.map KeyValue.key).Nodup ∧
    (get_from_cache "b" two_entries).2.live.map KeyValue.key = ["a", "a"] ∧
    ¬ ((get_from_cache "b" two_entries).2.live.map KeyValue.key).Nodup ∧
    (add_to_cache ⟨"b", "9", "t2", "t7"⟩ two_entries).live.map KeyValue.key = ["a", "a"] ∧
    ¬ ((add_to_cache ⟨"b", "9", "t2", "t7"⟩ two_entries).live.map KeyValue.key).Nodup := by
  decide

/-- Claim C19 (cache mirrors the log), evaluated at a failing input. After the calls
`set y 1`, `set k 2`, `get y`, `set k 4` on a fresh store, the log holds `k` with the value
`4` and `last_set = t4`, while the live cache entry at index 1 has the key `k` with the
value `2` and `last_set = t2`. -/
theorem cache_entry_stale :
    (run (demo_calls ++ [(Env.ok "t4", Call.set "k" "4")]) Store.fresh).map
        (fun s => (s.records, s.cache.live))
      = some ([⟨"y", "1", "t1", "t1"⟩, ⟨"k", "4", "t2", "t4"⟩],
              [⟨"k", "4", "t2", "t4"⟩, ⟨"k", "2", "t2", "t2"⟩]) := by
  decide

/-- Claim C20 (start-up empties the cache). Whatever the shared segment holds, after
`initialize_cache` the live entry count is 0, there is no live entry, `get_from_cache`
returns a miss for every key and leaves the cache as it is, and a `get_value` or
`timestamp_value` that runs next, on any log, prints no line read from the cache. -/
theorem initialize_cache_empties (segment : Cache) (key : String) (env : Env)
    (db : Option (List KeyValue)) :
    (initialize_cache segment).capacity = 0 ∧
    (initialize_cache segment).live = [] ∧
    get_from_cache key (initialize_cache segment) = (none, initialize_cache segment) ∧
    (∀ v, (get_value env key { db := db, cache := initialize_cache segment }).out
      ≠ [Msg.cached_value v]) ∧
    (∀ a b, (timestamp_value env key { db := db, cache := initialize_cache segment }).out
      ≠ [Msg.cached_timestamps a b]) := by
  have hidx : cache_index (initialize_cache segment) key = none :=
    cache_index_eq_none.mpr (fun i hi => by simp [initialize_cache] at hi)
  have hget := get_from_cache_miss hidx
  refine ⟨rfl, rfl, hget, ?_, ?_⟩
  · intro v
    unfold get_value
    simp only [hget]
    repeat' split
    all_goals simp
  · intro a b
    unfold timestamp_value
    simp only [hget]
    repeat' split
    all_goals simp

end KVDB
